import Mathlib

/-!
Shallow embedding of `download-data-api.py`, a Zendesk Help Center exporter
(class `ZendeskExporter`).  Python dictionaries produced by `response.json()`
are modelled as association lists of `JVal`; Python side effects (HTTP
requests, `time.sleep`, file writes) are made explicit: oracles parameterise
the functions and the outputs carry logs of the effects.  Machine-level
details that no claim touches (binary file contents, non-ASCII digits in
regexes and `int()`, `repr` escaping inside f-strings applied to containers)
are noted at the definitions that approximate them.
-/

/-- JSON values as returned by `response.json()`.  Zendesk payloads use only
nonnegative integers where the exporter reads numbers (ids), so numbers are
modelled as `Nat`. Objects are association lists in insertion order, which is
the order `json.dump` serialises. -/
inductive JVal where
  | jnull : JVal
  | jbool : Bool → JVal
  | jnum : Nat → JVal
  | jstr : String → JVal
  | jarr : List JVal → JVal
  | jobj : List (String × JVal) → JVal
deriving Repr

/-- Python truthiness (`if x:`) for the modelled values: `None`, `False`, `0`,
`""`, `[]`, `{}` are falsy, everything else truthy. -/
def pyTruthy : JVal → Bool
  | .jnull => false
  | .jbool b => b
  | .jnum n => !(n == 0)
  | .jstr s => !(s == "")
  | .jarr [] => false
  | .jarr (_ :: _) => true
  | .jobj [] => false
  | .jobj (_ :: _) => true

/-- Dictionary lookup (`d[k]` / `d.get(k)`): first binding of the key wins;
a well-formed Python dict binds each key once. -/
def getVal : List (String × JVal) → String → Option JVal
  | [], _ => none
  | (k', v) :: rest, k => if k' = k then some v else getVal rest k

/-- Dictionary update `d[k] = v`: replaces the first binding in place and
otherwise appends, matching Python's insertion-order semantics. -/
def setKey : List (String × JVal) → String → JVal → List (String × JVal)
  | [], k, v => [(k, v)]
  | (k', v') :: rest, k, v =>
    if k' = k then (k, v) :: rest else (k', v') :: setKey rest k v

/-- ASCII whitespace stripped by Python's `int(str)` (`str.strip`); the full
Unicode whitespace set is not modelled, no claim exercises it. -/
def pyWs (c : Char) : Bool :=
  c == ' ' || c == '\t' || c == '\n' || c == '\r' || c == '\x0b' || c == '\x0c'

/-- Digit-run accumulator for `int(str)`: after the first digit, single
underscores are allowed between digits (Python 3.6+ literals). -/
def pyDigitsGo (acc : Nat) : List Char → Option Nat
  | [] => some acc
  | '_' :: c :: cs =>
    if c.isDigit then pyDigitsGo (acc * 10 + (c.toNat - 48)) cs else none
  | ['_'] => none
  | c :: cs =>
    if c.isDigit then pyDigitsGo (acc * 10 + (c.toNat - 48)) cs else none

/-- Digit part of `int(str)`: at least one digit, underscores only between
digits. -/
def pyDigits : List Char → Option Nat
  | [] => none
  | c :: cs => if c.isDigit then pyDigitsGo (c.toNat - 48) cs else none

/-- Python `int(s)` on a string: strip whitespace, optional sign, decimal
digits (ASCII modelled).  `none` models the `ValueError` raised on anything
else, e.g. an HTTP-date `Retry-After` header. -/
def pyInt (s : String) : Option Int :=
  let l := ((s.data.dropWhile pyWs).reverse.dropWhile pyWs).reverse
  match l with
  | '+' :: rest => (pyDigits rest).map Int.ofNat
  | '-' :: rest => (pyDigits rest).map (fun n => -(n : Int))
  | _ => (pyDigits l).map Int.ofNat

/-- Decimal digits of `n` most-significant first, by fuel-bounded recursion
(`fuel ≥ n` suffices); empty for `n = 0`. -/
def natStrAux : Nat → Nat → List Char
  | 0, _ => []
  | fuel + 1, n =>
    if n = 0 then [] else natStrAux fuel (n / 10) ++ [Char.ofNat (48 + n % 10)]

/-- Decimal representation of a natural number, as produced by Python
f-strings on `int` values. -/
def natStr (n : Nat) : String :=
  if n = 0 then "0" else ⟨natStrAux n n⟩

mutual

/-- Python `repr` of a modelled value, used by `str` on containers.
Approximation: quote escaping inside strings is not modelled; no claim
evaluates `repr` (the exporter never formats a container into a filename). -/
def pyRepr : JVal → String
  | .jnull => "None"
  | .jbool b => if b then "True" else "False"
  | .jnum n => natStr n
  | .jstr s => "'" ++ s ++ "'"
  | .jarr xs => "[" ++ pyReprList xs ++ "]"
  | .jobj fs => "\x7b" ++ pyReprObj fs ++ "\x7d"

/-- Comma-joined `repr` of list elements. -/
def pyReprList : List JVal → String
  | [] => ""
  | [x] => pyRepr x
  | x :: xs => pyRepr x ++ ", " ++ pyReprList xs

/-- Comma-joined `repr` of dict entries. -/
def pyReprObj : List (String × JVal) → String
  | [] => ""
  | [(k, v)] => "'" ++ k ++ "': " ++ pyRepr v
  | (k, v) :: xs => "'" ++ k ++ "': " ++ pyRepr v ++ ", " ++ pyReprObj xs

end

/-- Python `str(x)` as used by f-strings (`f"{article['id']}_..."`). -/
def pyStr : JVal → String
  | .jstr s => s
  | .jnull => "None"
  | .jbool b => if b then "True" else "False"
  | .jnum n => natStr n
  | .jarr xs => pyRepr (.jarr xs)
  | .jobj fs => pyRepr (.jobj fs)

/-- One HTTP response the server gives to a `session.get`: either a transport
error (`requests.exceptions.RequestException` raised by `get`) or a response
with a status code, an optional `Retry-After` header and a JSON body (the body
is read only when `raise_for_status` does not raise). -/
inductive HttpEvent where
  | netErr : HttpEvent
  | resp : Nat → Option String → JVal → HttpEvent
deriving Repr

/-- Python exceptions the exporter can raise past its handlers. -/
inductive PyErr where
  | keyError : String → PyErr
  | valueError : PyErr
  | typeError : PyErr
  | attrError : PyErr
deriving Repr, DecidableEq

/-- Result of `make_request`: a JSON body, `None` (a `RequestException` was
caught and logged), an uncaught exception, or `undet` when the supplied
response trace ran out while the code would still be retrying (the modelled
environment does not determine the outcome). -/
inductive MRRes where
  | data : JVal → MRRes
  | fail : MRRes
  | exn : PyErr → MRRes
  | undet : MRRes

/-- Outcome of one `make_request` call: its result, the number of HTTP
requests issued to the URL, and the `time.sleep` durations in order. -/
structure MROut where
  res : MRRes
  nReq : Nat
  waits : List Int

/-- `make_request(url)`, driven by the successive responses the server gives
to that URL.  On 429 it parses `Retry-After` (default `60`), sleeps and
recurses on the same URL; `int` failure or a negative sleep raises
`ValueError`, which the `RequestException` handler does not catch.
`raise_for_status` raises (and the handler returns `None`) exactly for
statuses in `[400, 600)`. -/
def make_request : List HttpEvent → MROut
  | [] => ⟨.undet, 0, []⟩
  | .netErr :: _ => ⟨.fail, 1, []⟩
  | .resp st hdr body :: rest =>
    if st = 429 then
      match hdr with
      | none =>
        let o := make_request rest
        ⟨o.res, o.nReq + 1, 60 :: o.waits⟩
      | some s =>
        match pyInt s with
        | none => ⟨.exn .valueError, 1, []⟩
        | some w =>
          if w < 0 then ⟨.exn .valueError, 1, []⟩
          else
            let o := make_request rest
            ⟨o.res, o.nReq + 1, w :: o.waits⟩
    else if 400 ≤ st ∧ st < 600 then ⟨.fail, 1, []⟩
    else ⟨.data body, 1, []⟩

/-- Python value for extracted items: what `all_items.extend(x)` appends for
the value `x` found under the listing key (`[]` when the key is missing).
Lists extend element-wise, strings by one-character strings, dicts by their
keys; other values raise `TypeError`. -/
def extendItems : JVal → Except PyErr (List JVal)
  | .jarr xs => .ok xs
  | .jstr s => .ok (s.data.map fun c => .jstr ⟨[c]⟩)
  | .jobj fs => .ok (fs.map fun p => .jstr p.1)
  | _ => .error .typeError

/-- Result of one `get_all_paginated` run: the collected items, an uncaught
exception, or `undet` when a response trace ran out or the pagination fuel
was exhausted (the real loop would still be running). -/
inductive ERes (α : Type) where
  | ok : α → ERes α
  | exn : PyErr → ERes α
  | undet : ERes α

/-- Output of the pagination loop: result plus, per `make_request` call in
order, the fetched page URL and how many HTTP requests that call issued
(1 plus the number of 429 retries). -/
structure PagOut where
  res : ERes (List JVal)
  fetched : List (String × Nat)

/-- The `while url:` loop of `get_all_paginated`, with explicit fuel for the
unbounded loop.  `url` holds a JSON value because `data.get('next_page')`
may return any value; a truthy non-string makes `session.get` raise a
`RequestException` (invalid URL), which `make_request` catches, so the loop
breaks.  The 0.1s pacing sleep has no observable effect and is not logged. -/
def pagLoop (env : String → List HttpEvent) (key : String) :
    Nat → JVal → List JVal → PagOut
  | 0, _, _ => ⟨.undet, []⟩
  | fuel + 1, u, acc =>
    if pyTruthy u then
      match u with
      | .jstr s =>
        let o := make_request (env s)
        match o.res with
        | .undet => ⟨.undet, [(s, o.nReq)]⟩
        | .exn e => ⟨.exn e, [(s, o.nReq)]⟩
        | .fail => ⟨.ok acc, [(s, o.nReq)]⟩
        | .data v =>
          if pyTruthy v then
            match v with
            | .jobj fields =>
              match extendItems ((getVal fields key).getD (.jarr [])) with
              | .error e => ⟨.exn e, [(s, o.nReq)]⟩
              | .ok items =>
                let out := pagLoop env key fuel
                  ((getVal fields "next_page").getD .jnull) (acc ++ items)
                ⟨out.res, (s, o.nReq) :: out.fetched⟩
            | _ => ⟨.exn .attrError, [(s, o.nReq)]⟩
          else ⟨.ok acc, [(s, o.nReq)]⟩
      | _ => ⟨.ok acc, []⟩
    else ⟨.ok acc, []⟩

/-- `self.hc_base_url`. -/
def hcBaseUrl (sub : String) : String :=
  "https://" ++ sub ++ ".zendesk.com/api/v2/help_center"

/-- `self.export_dir`. -/
def exportDir (sub : String) : String := "zendesk_export_" ++ sub

/-- `get_all_paginated(endpoint, key)`. -/
def get_all_paginated (env : String → List HttpEvent) (sub endpoint key : String)
    (fuel : Nat) : PagOut :=
  pagLoop env key fuel (.jstr (hcBaseUrl sub ++ "/" ++ endpoint)) []

/-- The literal help-center domain of the inline-attachment pattern
`https://support\.userology\.co/hc/article_attachments/(\d+)`. -/
def attUrlPre : String := "https://support.userology.co/hc/article_attachments/"

/-- `re.findall` for the attachment pattern: scan left to right, at each
position try the literal followed by a maximal nonempty ASCII digit run
(`(\d+)` greedy), return the captured digit runs of the non-overlapping
matches in order.  Fuel-bounded recursion: each step consumes at least one
character, so fuel `l.length` completes the scan. -/
def findMatchesAux : Nat → List Char → List (List Char)
  | 0, _ => []
  | _ + 1, [] => []
  | fuel + 1, c :: rest =>
    if attUrlPre.data.isPrefixOf (c :: rest) then
      let r := (c :: rest).drop attUrlPre.data.length
      let ds := r.takeWhile Char.isDigit
      if ds.isEmpty then findMatchesAux fuel rest
      else ds :: findMatchesAux fuel (r.drop ds.length)
    else findMatchesAux fuel rest

/-- All captures of the attachment pattern in the article body. -/
def findMatches (l : List Char) : List (List Char) := findMatchesAux l.length l

/-- Literal `<img` of the alt-text pattern. -/
def imgLit : List Char := "<img".data

/-- Literal `alt="` of the alt-text pattern. -/
def altLit : List Char := "alt=\"".data

/-- Literal `src="` followed by the escaped attachment URL and `"`. -/
def srcLit (u : List Char) : List Char := "src=\"".data ++ u ++ ['"']

/-- `[^>]*`: no `>` in the consumed span. -/
def gtFree (l : List Char) : Bool := l.all (fun c => !(c == '>'))

/-- Backtracking of the second `[^>]*` of
`<img[^>]*src="U"[^>]*alt="([^"]*)"`: the candidate positions `j` for
`alt="` are those with a `>`-free gap and a later closing quote; the greedy
star commits to the largest feasible `j`, and the capture is the maximal
quote-free run after `alt="`. -/
def altTail (t : List Char) : Option (List Char) :=
  ((List.range (t.length + 1)).filterMap fun j =>
    if gtFree (t.take j) && altLit.isPrefixOf (t.drop j) then
      let r := t.drop (j + altLit.length)
      if r.any (fun c => c == '"') then
        some (r.takeWhile fun c => !(c == '"'))
      else none
    else none).getLast?

/-- Backtracking of the first `[^>]*`: after `<img`, the greedy star commits
to the largest `>`-free gap `i` before `src="U"` from which the rest of the
pattern still matches. -/
def imgAfter (u t : List Char) : Option (List Char) :=
  ((List.range (t.length + 1)).filterMap fun i =>
    if gtFree (t.take i) && (srcLit u).isPrefixOf (t.drop i) then
      altTail (t.drop (i + (srcLit u).length))
    else none).getLast?

/-- `re.search(rf'<img[^>]*src="{url}"[^>]*alt="([^"]*)"', html)`: leftmost
start position wins; returns the captured alt text. -/
def findAlt (html u : List Char) : Option (List Char) :=
  ((List.range (html.length + 1)).map fun p =>
    if imgLit.isPrefixOf (html.drop p) then imgAfter u (html.drop (p + 4))
    else none).findSome? id

/-- `download_attachment(attachment_url, filename)`: the oracle `dl` says
whether the GET and the file write succeed; on success the file is written
under `attachments/` and its path returned, on any failure the exception is
caught and `None` returned. Binary contents are not modelled. -/
def download_attachment (dl : String → String → Bool) (sub url filename : String) :
    Option String × List String :=
  if dl url filename then
    (some (exportDir sub ++ "/attachments/" ++ filename),
     [exportDir sub ++ "/attachments/" ++ filename])
  else (none, [])

/-- A Downloaded Attachment Record: the dict appended to
`article['downloaded_attachments']`, either by the structured-attachment
loop of `export_articles` or by `extract_attachments_from_html`. -/
inductive DlRec where
  | structured : String → String → String → DlRec
  | inline : String → String → String → String → String → DlRec

/-- Local filename chosen for the record. -/
def DlRec.filename : DlRec → String
  | .structured _ _ f => f
  | .inline _ _ _ f _ => f

/-- The record as the dict the code builds (field order as in the source). -/
def DlRec.toJVal : DlRec → JVal
  | .structured u p f =>
    .jobj [("original_url", .jstr u), ("local_path", .jstr p), ("filename", .jstr f)]
  | .inline aid u p f orig =>
    .jobj [("attachment_id", .jstr aid), ("original_url", .jstr u),
           ("local_path", .jstr p), ("filename", .jstr f),
           ("original_filename", .jstr orig)]

/-- Output of `extract_attachments_from_html`: the records, the
`download_attachment` calls (url, filename) in order, and the attachment
files written. -/
structure ExtOut where
  recs : List DlRec
  calls : List (String × String)
  writes : List String

/-- Name recovered for one inline match: the alt text of the matching img
tag, or the fallback `attachment_{id}`. -/
def inlineName (html : String) (ds : List Char) : String :=
  match findAlt html.data (attUrlPre.data ++ ds) with
  | some cap => ⟨cap⟩
  | none => "attachment_" ++ ⟨ds⟩

/-- The local filename the loop chooses for the enumerated match `p`:
`f"{article_id}_{i+1}_{original_filename}"`. -/
def inlineFname (aid : JVal) (html : String) (p : Nat × List Char) : String :=
  pyStr aid ++ "_" ++ natStr (p.1 + 1) ++ "_" ++ inlineName html p.2

/-- The `for i, attachment_id in enumerate(matches)` loop. -/
def extractLoop (dl : String → String → Bool) (sub : String) (html : String)
    (aid : JVal) : List (Nat × List Char) → ExtOut
  | [] => ⟨[], [], []⟩
  | p :: rest =>
    let url := attUrlPre ++ ⟨p.2⟩
    let fname := inlineFname aid html p
    let d := download_attachment dl sub url fname
    let o := extractLoop dl sub html aid rest
    match d.1 with
    | some path =>
      ⟨.inline ⟨p.2⟩ url path fname (inlineName html p.2) :: o.recs,
       (url, fname) :: o.calls, d.2 ++ o.writes⟩
    | none => ⟨o.recs, (url, fname) :: o.calls, o.writes⟩

/-- `extract_attachments_from_html(html_content, article_id)`. -/
def extract_attachments_from_html (dl : String → String → Bool) (sub : String)
    (html : String) (aid : JVal) : ExtOut :=
  extractLoop dl sub html aid (findMatches html.data).enum

/-- `article[k]`: `KeyError` when the key is missing. -/
def reqKey (fs : List (String × JVal)) (k : String) : Except PyErr JVal :=
  match getVal fs k with
  | some v => .ok v
  | none => .error (.keyError k)

/-- The structured-attachment loop of `export_articles` for one article:
for each entry, `f"{article['id']}_{attachment['file_name']}"` (KeyError on
a missing key, TypeError when the entry is not a dict), then download from
`attachment['content_url']`; a failed download is silently skipped.  Returns
the records and the attachment files written (writes before an exception
persist). -/
def attLoop (dl : String → String → Bool) (sub : String)
    (fields : List (String × JVal)) : List JVal → ERes (List DlRec) × List String
  | [] => (.ok [], [])
  | att :: rest =>
    match reqKey fields "id" with
    | .error e => (.exn e, [])
    | .ok idv =>
      match att with
      | .jobj afs =>
        match reqKey afs "file_name" with
        | .error e => (.exn e, [])
        | .ok fnv =>
          let fname := pyStr idv ++ "_" ++ pyStr fnv
          match reqKey afs "content_url" with
          | .error e => (.exn e, [])
          | .ok cuv =>
            let o := attLoop dl sub fields rest
            match cuv with
            | .jstr u =>
              let d := download_attachment dl sub u fname
              match d.1 with
              | some path =>
                (match o.1 with
                 | .ok l => .ok (.structured u path fname :: l)
                 | r => r, d.2 ++ o.2)
              | none => o
            | _ => o
      | _ => (.exn .typeError, [])

/-- Output of enriching one article: the mutated article dict and the records
appended to it, plus the attachment files written. -/
structure EnrOut where
  res : ERes (JVal × List DlRec)
  writes : List String

/-- The `if article.get('attachments'):` branch of the per-article loop:
run the structured-attachment loop on a truthy attachment list (`TypeError`
on a truthy non-list). -/
def structuredPart (dl : String → String → Bool) (sub : String)
    (fields : List (String × JVal)) : ERes (List DlRec) × List String :=
  match getVal fields "attachments" with
  | none => (.ok [], [])
  | some v =>
    if pyTruthy v then
      match v with
      | .jarr atts => attLoop dl sub fields atts
      | _ => (.exn .typeError, [])
    else (.ok [], [])

/-- The `if article.get('body'):` branch: extract inline attachments from a
truthy body (`re.findall` raises `TypeError` on a non-string). -/
def inlinePart (dl : String → String → Bool) (sub : String)
    (fields : List (String × JVal)) : ERes ExtOut :=
  match getVal fields "body" with
  | none => .ok ⟨[], [], []⟩
  | some bv =>
    if pyTruthy bv then
      match reqKey fields "id" with
      | .error e => .exn e
      | .ok idv =>
        match bv with
        | .jstr b => .ok (extract_attachments_from_html dl sub b idv)
        | _ => .exn .typeError
    else .ok ⟨[], [], []⟩

/-- The per-article body of the `for article in articles` loop of
`export_articles`: set `downloaded_attachments`, process the structured
attachment list when truthy, then extract inline attachments from a truthy
body (`TypeError` when the article itself is not a dict, and `KeyError 'id'`
from either part when the article lacks an id). -/
def enrichArticle (dl : String → String → Bool) (sub : String) (a : JVal) : EnrOut :=
  match a with
  | .jobj fields =>
    let sPart := structuredPart dl sub fields
    match sPart.1 with
    | .exn e => ⟨.exn e, sPart.2⟩
    | .undet => ⟨.undet, sPart.2⟩
    | .ok sRecs =>
      match inlinePart dl sub fields with
      | .exn e => ⟨.exn e, sPart.2⟩
      | .undet => ⟨.undet, sPart.2⟩
      | .ok ext =>
        let recs := sRecs ++ ext.recs
        ⟨.ok (.jobj (setKey fields "downloaded_attachments"
            (.jarr (recs.map DlRec.toJVal))), recs), sPart.2 ++ ext.writes⟩
  | _ => ⟨.exn .typeError, []⟩

/-- The whole `for article in articles` loop: enriched articles in order and
all records of the run; an exception aborts the loop, keeping earlier
writes. -/
def enrichAll (dl : String → String → Bool) (sub : String) :
    List JVal → ERes (List JVal × List DlRec) × List String
  | [] => (.ok ([], []), [])
  | a :: rest =>
    let o := enrichArticle dl sub a
    match o.res with
    | .exn e => (.exn e, o.writes)
    | .undet => (.undet, o.writes)
    | .ok (a', recs) =>
      let r := enrichAll dl sub rest
      match r.1 with
      | .ok (as', recs') => (.ok (a' :: as', recs ++ recs'), o.writes ++ r.2)
      | .exn e => (.exn e, o.writes ++ r.2)
      | .undet => (.undet, o.writes ++ r.2)

/-- Output of an export stage: result and the files written as
(path, JSON content) in order; binary attachment files are logged with a
`null` content marker. -/
structure ExpOut (α : Type) where
  res : ERes α
  writes : List (String × JVal)

/-- `export_categories()`. -/
def export_categories (env : String → List HttpEvent) (sub : String)
    (fuel : Nat) : ExpOut (List JVal) :=
  let p := get_all_paginated env sub "categories" "categories" fuel
  match p.res with
  | .ok items => ⟨.ok items, [(exportDir sub ++ "/categories.json", .jarr items)]⟩
  | .exn e => ⟨.exn e, []⟩
  | .undet => ⟨.undet, []⟩

/-- `export_sections()`. -/
def export_sections (env : String → List HttpEvent) (sub : String)
    (fuel : Nat) : ExpOut (List JVal) :=
  let p := get_all_paginated env sub "sections" "sections" fuel
  match p.res with
  | .ok items => ⟨.ok items, [(exportDir sub ++ "/sections.json", .jarr items)]⟩
  | .exn e => ⟨.exn e, []⟩
  | .undet => ⟨.undet, []⟩

/-- `export_articles()`: fetch, enrich each article, then serialize the
mutated article list to `articles.json`; also returns every record of the
run. -/
def export_articles (env : String → List HttpEvent) (dl : String → String → Bool)
    (sub : String) (fuel : Nat) : ExpOut (List JVal × List DlRec) :=
  let p := get_all_paginated env sub "articles" "articles" fuel
  match p.res with
  | .exn e => ⟨.exn e, []⟩
  | .undet => ⟨.undet, []⟩
  | .ok arts =>
    let r := enrichAll dl sub arts
    let attWrites := r.2.map fun f => (f, JVal.jnull)
    match r.1 with
    | .ok (arts', recs) =>
      ⟨.ok (arts', recs), attWrites ++ [(exportDir sub ++ "/articles.json", .jarr arts')]⟩
    | .exn e => ⟨.exn e, attWrites⟩
    | .undet => ⟨.undet, attWrites⟩

/-- `export_themes()`: one `make_request`; everything raised inside is caught
by `except Exception`, so the stage never escalates an error. -/
def export_themes (env : String → List HttpEvent) (sub : String) : ExpOut Unit :=
  let o := make_request (env (hcBaseUrl sub ++ "/themes"))
  match o.res with
  | .data v =>
    if pyTruthy v then ⟨.ok (), [(exportDir sub ++ "/themes.json", v)]⟩
    else ⟨.ok (), []⟩
  | .fail => ⟨.ok (), []⟩
  | .exn _ => ⟨.ok (), []⟩
  | .undet => ⟨.undet, []⟩

/-- The manifest dict written at the end of `export_all` (field order as
built by the code: the literal then the `update`). -/
def manifestVal (sub date : String) (cats secs arts : List JVal) : JVal :=
  .jobj [("export_date", .jstr date), ("subdomain", .jstr sub),
         ("base_url", .jstr ("https://" ++ sub ++ ".zendesk.com")),
         ("total_categories", .jnum cats.length),
         ("total_sections", .jnum secs.length),
         ("total_articles", .jnum arts.length)]

/-- `export_all()`: categories, sections, articles, themes, then the
manifest.  An uncaught exception in a stage aborts the run with the writes
made so far; `export_date` is the `time.strftime` result, passed in. -/
def export_all (env : String → List HttpEvent) (dl : String → String → Bool)
    (sub date : String) (fuel : Nat) : ExpOut Unit :=
  let c := export_categories env sub fuel
  match c.res with
  | .undet => ⟨.undet, c.writes⟩
  | .exn e => ⟨.exn e, c.writes⟩
  | .ok cats =>
    let s := export_sections env sub fuel
    match s.res with
    | .undet => ⟨.undet, c.writes ++ s.writes⟩
    | .exn e => ⟨.exn e, c.writes ++ s.writes⟩
    | .ok secs =>
      let a := export_articles env dl sub fuel
      match a.res with
      | .undet => ⟨.undet, c.writes ++ s.writes ++ a.writes⟩
      | .exn e => ⟨.exn e, c.writes ++ s.writes ++ a.writes⟩
      | .ok (arts, _) =>
        let t := export_themes env sub
        match t.res with
        | .undet => ⟨.undet, c.writes ++ s.writes ++ a.writes ++ t.writes⟩
        | .exn e => ⟨.exn e, c.writes ++ s.writes ++ a.writes ++ t.writes⟩
        | .ok _ =>
          ⟨.ok (), c.writes ++ s.writes ++ a.writes ++ t.writes ++
            [(exportDir sub ++ "/manifest.json", manifestVal sub date cats secs arts)]⟩

/-- Whether a response event has status 429. -/
def is429 : HttpEvent → Bool
  | .resp st _ _ => st == 429
  | .netErr => false

/-- A 429 event whose retry `make_request` survives: the `Retry-After`
header is absent or parses to a nonnegative integer. -/
def is429ok : HttpEvent → Bool
  | .netErr => false
  | .resp st none _ => st == 429
  | .resp st (some s) _ =>
    st == 429 && (match pyInt s with
                  | some w => decide (0 ≤ w)
                  | none => false)

/-- The sleep duration `make_request` uses for a 429 event. -/
def waitOf : HttpEvent → Int
  | .netErr => 0
  | .resp _ none _ => 60
  | .resp _ (some s) _ => (pyInt s).getD 0

/-- An event on which `make_request` returns `None`: a transport error or a
status in `[400, 600)` other than 429. -/
def isFailEvent : HttpEvent → Bool
  | .netErr => true
  | .resp st _ _ => !(st == 429) && (decide (400 ≤ st) && decide (st < 600))

/-- A status on which `make_request` returns the JSON body. -/
def isOkStatus (st : Nat) : Bool :=
  !(st == 429) && !(decide (400 ≤ st) && decide (st < 600))

/-- What `make_request` does with the first non-429 event. -/
def evalEvent : HttpEvent → MRRes
  | .netErr => .fail
  | .resp st _ body => if 400 ≤ st ∧ st < 600 then .fail else .data body

theorem make_request_split (pre : List HttpEvent) (e : HttpEvent)
    (rest : List HttpEvent) (hpre : ∀ x ∈ pre, is429ok x = true)
    (he : is429 e = false) :
    make_request (pre ++ e :: rest) =
      ⟨evalEvent e, pre.length + 1, pre.map waitOf⟩ := by
  induction pre with
  | nil =>
    cases e with
    | netErr => rfl
    | resp st hdr body =>
      have hst : ¬(st = 429) := by
        simp [is429] at he; omega
      by_cases h46 : 400 ≤ st ∧ st < 600 <;>
        simp [make_request, evalEvent, hst, h46]
  | cons x pre ih =>
    have hx := hpre x (by simp)
    have hrest : ∀ y ∈ pre, is429ok y = true := fun y hy => hpre y (by simp [hy])
    cases x with
    | netErr => simp [is429ok] at hx
    | resp st hdr body =>
      cases hdr with
      | none =>
        have hst : st = 429 := by simpa [is429ok] using hx
        subst hst
        simp [make_request, ih hrest, waitOf]
      | some s =>
        simp only [is429ok, Bool.and_eq_true, beq_iff_eq] at hx
        obtain ⟨hst, hw⟩ := hx
        subst hst
        cases hwv : pyInt s with
        | none => rw [hwv] at hw; simp at hw
        | some w =>
          rw [hwv] at hw
          have hw0 : ¬(w < 0) := by simpa using of_decide_eq_true hw
          simp [make_request, hwv, hw0, ih hrest, waitOf]

/-- One page of a pagination chain: the URL requested, the 429 events before
the successful response, and the successful response's status, header and
JSON object body. -/
structure PageSpec where
  url : String
  pre : List HttpEvent
  okSt : Nat
  hdr : Option String
  body : List (String × JVal)

/-- The value under the listing key is a list or missing (the API schema for
listing pages), so `extend` appends exactly that list. -/
def itemsOk (key : String) (fields : List (String × JVal)) : Bool :=
  match getVal fields key with
  | none => true
  | some (.jarr _) => true
  | some _ => false

/-- The page's item list under the key (empty when missing). -/
def pItems (key : String) (fields : List (String × JVal)) : List JVal :=
  match getVal fields key with
  | some (.jarr xs) => xs
  | _ => []

/-- How a pagination run ends: the last page's `next_page` is falsy, or the
next cursor's request fails (after 429 retries) with a terminal event. -/
inductive ChainEnd where
  | cdone : ChainEnd
  | cfail : String → List HttpEvent → HttpEvent → ChainEnd

/-- The environment serves, from the cursor value `u`, the given chain of
successful pages linked by `next_page`, ending as `ed` describes. -/
def chainWF (env : String → List HttpEvent) (key : String) :
    JVal → List PageSpec → ChainEnd → Prop
  | u, [], .cdone => pyTruthy u = false
  | u, [], .cfail f pre e =>
      u = .jstr f ∧ f ≠ "" ∧ (∃ rest, env f = pre ++ e :: rest) ∧
      (∀ x ∈ pre, is429ok x = true) ∧ isFailEvent e = true
  | u, p :: ps, ed =>
      u = .jstr p.url ∧ p.url ≠ "" ∧
      (∃ rest, env p.url = p.pre ++ .resp p.okSt p.hdr (.jobj p.body) :: rest) ∧
      (∀ x ∈ p.pre, is429ok x = true) ∧ isOkStatus p.okSt = true ∧
      p.body ≠ [] ∧ itemsOk key p.body = true ∧
      chainWF env key ((getVal p.body "next_page").getD .jnull) ps ed

/-- The page fetch recorded for the terminal failing request, if any. -/
def endFetch : ChainEnd → List (String × Nat)
  | .cdone => []
  | .cfail f pre _ => [(f, pre.length + 1)]

theorem evalEvent_fail (e : HttpEvent) (h : isFailEvent e = true) :
    evalEvent e = .fail := by
  cases e with
  | netErr => rfl
  | resp st hdr body =>
    simp only [isFailEvent, Bool.and_eq_true, Bool.not_eq_true', beq_eq_false_iff_ne,
      decide_eq_true_eq] at h
    simp [evalEvent, h.2.1, h.2.2]

theorem is429_false_of_ok (st : Nat) (hdr : Option String) (b : JVal)
    (h : isOkStatus st = true) : is429 (.resp st hdr b) = false := by
  simp only [isOkStatus, Bool.and_eq_true, Bool.not_eq_true', beq_eq_false_iff_ne] at h
  simp [is429, h.1]

theorem evalEvent_ok (st : Nat) (hdr : Option String) (b : JVal)
    (h : isOkStatus st = true) : evalEvent (.resp st hdr b) = .data b := by
  simp only [isOkStatus, Bool.and_eq_true, Bool.not_eq_true', beq_eq_false_iff_ne,
    Bool.not_eq_true, Bool.and_eq_false_iff, decide_eq_false_iff_not] at h
  rcases h.2 with h4 | h6 <;> simp [evalEvent] <;> intro h' <;> omega

theorem extendItems_ok (key : String) (fields : List (String × JVal))
    (h : itemsOk key fields = true) :
    extendItems ((getVal fields key).getD (.jarr [])) = .ok (pItems key fields) := by
  unfold itemsOk at h
  unfold pItems
  cases hv : getVal fields key with
  | none => simp [extendItems]
  | some v => rw [hv] at h; cases v <;> simp_all [extendItems]

theorem pagLoop_chain (chain : List PageSpec) (ed : ChainEnd)
    (env : String → List HttpEvent) (key : String) (u : JVal) (acc : List JVal)
    (fuel : Nat) (hwf : chainWF env key u chain ed) (hfuel : chain.length < fuel) :
    pagLoop env key fuel u acc =
      ⟨.ok (acc ++ (chain.map (fun p => pItems key p.body)).flatten),
       chain.map (fun p => (p.url, p.pre.length + 1)) ++ endFetch ed⟩ := by
  induction chain generalizing u acc fuel with
  | nil =>
    obtain ⟨f, hf⟩ : ∃ f, fuel = f + 1 := ⟨fuel - 1, by omega⟩
    subst hf
    cases ed with
    | cdone => simp only [chainWF] at hwf; simp [pagLoop, hwf, endFetch]
    | cfail f pre e =>
      obtain ⟨hu, hne, ⟨rest, henv⟩, hpre, hfail⟩ := hwf
      subst hu
      have htr : pyTruthy (.jstr f) = true := by simp [pyTruthy, hne]
      simp only [pagLoop, htr, if_true]
      rw [henv, make_request_split pre e rest hpre
        (by cases e with
            | netErr => rfl
            | resp st hdr b =>
              simp only [isFailEvent, Bool.and_eq_true, Bool.not_eq_true'] at hfail
              simp [is429, hfail.1])]
      rw [evalEvent_fail e hfail]
      simp [endFetch]
  | cons p ps ih =>
    obtain ⟨f, hf⟩ : ∃ f, fuel = f + 1 := ⟨fuel - 1, by omega⟩
    subst hf
    obtain ⟨hu, hne, ⟨rest, henv⟩, hpre, hok, hbody, hitems, hchain⟩ := hwf
    subst hu
    have htr : pyTruthy (.jstr p.url) = true := by simp [pyTruthy, hne]
    simp only [pagLoop, htr, if_true]
    rw [henv, make_request_split p.pre _ rest hpre (is429_false_of_ok _ p.hdr _ hok)]
    rw [evalEvent_ok _ p.hdr _ hok]
    have htrb : pyTruthy (.jobj p.body) = true := by
      cases hb : p.body with
      | nil => exact absurd hb hbody
      | cons a l => simp [pyTruthy]
    simp only [htrb, if_true]
    rw [extendItems_ok key p.body hitems]
    simp only []
    rw [ih _ _ f hchain (by simpa using hfuel)]
    simp [List.append_assoc]

theorem startUrl_ne (sub endpoint : String) : hcBaseUrl sub ++ "/" ++ endpoint ≠ "" := by
  intro h
  have h2 := congrArg String.data h
  simp only [hcBaseUrl, String.data_append] at h2
  simp at h2

/-- C1: over a well-formed pagination chain (successive successful pages
linked by `next_page`, possibly ending in a failing request),
`get_all_paginated` returns exactly the concatenation of the pages' item
lists under the key, in page order and within-page order with no sorting or
deduplication, and the page URLs it fetches are exactly the chain's cursors
in order — so when the chain's cursors are distinct, each cursor is
requested by exactly one `make_request` call (429 retries of the same URL
are counted inside that call's request count). -/
theorem C1_pagination_concat (env : String → List HttpEvent)
    (sub endpoint key : String) (chain : List PageSpec) (ed : ChainEnd)
    (fuel : Nat)
    (hwf : chainWF env key (.jstr (hcBaseUrl sub ++ "/" ++ endpoint)) chain ed)
    (hfuel : chain.length < fuel) :
    (get_all_paginated env sub endpoint key fuel).res =
      .ok ((chain.map (fun p => pItems key p.body)).flatten) ∧
    (get_all_paginated env sub endpoint key fuel).fetched =
      chain.map (fun p => (p.url, p.pre.length + 1)) ++ endFetch ed ∧
    ((chain.map PageSpec.url ++ (endFetch ed).map Prod.fst).Nodup →
      ((get_all_paginated env sub endpoint key fuel).fetched.map Prod.fst).Nodup) := by
  have h := pagLoop_chain chain ed env key _ [] fuel hwf hfuel
  unfold get_all_paginated
  rw [h]
  refine ⟨by simp, rfl, fun hnd => ?_⟩
  simpa [Function.comp] using hnd

/-- Environment for the C1 witness: a two-page listing, the second page
reached through one 429 retry. -/
def wEnv1 : String → List HttpEvent := fun u =>
  if u = hcBaseUrl "s" ++ "/c" then
    [.resp 200 none (.jobj [("k", .jarr [.jnum 1, .jnum 2]), ("next_page", .jstr "u2")])]
  else if u = "u2" then
    [.resp 429 none .jnull, .resp 200 none (.jobj [("k", .jarr [.jnum 3])])]
  else []

/-- Chain describing `wEnv1`. -/
def wChain1 : List PageSpec :=
  [⟨hcBaseUrl "s" ++ "/c", [], 200, none,
     [("k", .jarr [.jnum 1, .jnum 2]), ("next_page", .jstr "u2")]⟩,
   ⟨"u2", [.resp 429 none .jnull], 200, none, [("k", .jarr [.jnum 3])]⟩]

theorem C1_pagination_concat_witness :
    (get_all_paginated wEnv1 "s" "c" "k" 3).res = .ok [.jnum 1, .jnum 2, .jnum 3] ∧
    (get_all_paginated wEnv1 "s" "c" "k" 3).fetched =
      [(hcBaseUrl "s" ++ "/c", 1), ("u2", 2)] ∧
    ((get_all_paginated wEnv1 "s" "c" "k" 3).fetched.map Prod.fst).Nodup := by
  have h := C1_pagination_concat wEnv1 "s" "c" "k" wChain1 .cdone 3
    (by
      refine ⟨rfl, startUrl_ne "s" "c", ⟨[], rfl⟩, by simp, rfl, by simp, rfl,
              rfl, by decide, ⟨[], rfl⟩, ?_, rfl, by simp, rfl, rfl⟩
      intro x hx
      simp only [List.mem_singleton] at hx
      subst hx
      rfl)
    (by simp [wChain1])
  refine ⟨?_, ?_, h.2.2 (by decide)⟩
  · exact h.1
  · exact h.2.1

/-- C3 (amended): when the chain ends with a request that fails with a
network error or a status in `[400, 600)` other than 429 — exactly the
statuses `raise_for_status` raises on — `get_all_paginated` stops there and
returns the items accumulated from the earlier pages, and its result is
never an uncaught exception.  Other non-2xx statuses (1xx/3xx) are not
failures: their body is parsed and pagination continues (see the
counterexample). -/
theorem C3_partial_result_on_failure (env : String → List HttpEvent)
    (sub endpoint key : String) (chain : List PageSpec) (f : String)
    (pre : List HttpEvent) (e : HttpEvent) (fuel : Nat)
    (hwf : chainWF env key (.jstr (hcBaseUrl sub ++ "/" ++ endpoint)) chain
      (.cfail f pre e))
    (hfuel : chain.length < fuel) :
    (get_all_paginated env sub endpoint key fuel).res =
      .ok ((chain.map (fun p => pItems key p.body)).flatten) ∧
    (get_all_paginated env sub endpoint key fuel).fetched =
      chain.map (fun p => (p.url, p.pre.length + 1)) ++ [(f, pre.length + 1)] ∧
    ∀ err, (get_all_paginated env sub endpoint key fuel).res ≠ .exn err := by
  have h := pagLoop_chain chain (.cfail f pre e) env key _ [] fuel hwf hfuel
  unfold get_all_paginated
  rw [h]
  refine ⟨by simp, rfl, fun err hcontra => ?_⟩
  simp at hcontra

/-- Environment for the C3 witness: one successful page whose cursor points
at a URL answering 500. -/
def wEnv3 : String → List HttpEvent := fun u =>
  if u = hcBaseUrl "s" ++ "/c" then
    [.resp 200 none (.jobj [("k", .jarr [.jnum 7]), ("next_page", .jstr "u2")])]
  else if u = "u2" then [.resp 500 none .jnull]
  else []

theorem C3_partial_result_on_failure_witness :
    (get_all_paginated wEnv3 "s" "c" "k" 9).res = .ok [.jnum 7] ∧
    (get_all_paginated wEnv3 "s" "c" "k" 9).fetched =
      [(hcBaseUrl "s" ++ "/c", 1), ("u2", 1)] ∧
    ∀ err, (get_all_paginated wEnv3 "s" "c" "k" 9).res ≠ .exn err := by
  have h := C3_partial_result_on_failure wEnv3 "s" "c" "k"
    [⟨hcBaseUrl "s" ++ "/c", [], 200, none,
      [("k", .jarr [.jnum 7]), ("next_page", .jstr "u2")]⟩]
    "u2" [] (.resp 500 none .jnull) 9
    (⟨rfl, startUrl_ne "s" "c", ⟨[], rfl⟩, by simp, rfl, by simp, rfl,
      rfl, by decide, ⟨[], rfl⟩, by simp, rfl⟩)
    (by simp)
  exact ⟨h.1, h.2.1, h.2.2⟩

/-- Environment for the C3 counterexample: one successful page whose cursor
points at a URL answering 300 with a JSON object body. -/
def cEnv3 : String → List HttpEvent := fun u =>
  if u = hcBaseUrl "s" ++ "/" ++ "c" then
    [.resp 200 none (.jobj [("k", .jarr [.jnum 1]), ("next_page", .jstr "u2")])]
  else if u = "u2" then [.resp 300 none (.jobj [("k", .jarr [.jnum 2])])]
  else []

/-- C3 counterexample: a 300 response — non-2xx and not 429 — does not make
`raise_for_status` raise, so the fetcher treats it as a success: it appends
that page's items and keeps paginating instead of stopping with the items
accumulated from the earlier pages, refuting the claim as stated. -/
theorem C3_non2xx_counterexample :
    (get_all_paginated cEnv3 "s" "c" "k" 3).res = .ok [.jnum 1, .jnum 2] ∧
    (ERes.ok [JVal.jnum 1, JVal.jnum 2] : ERes (List JVal)) ≠ .ok [.jnum 1] ∧
    (get_all_paginated cEnv3 "s" "c" "k" 3).fetched =
      [(hcBaseUrl "s" ++ "/" ++ "c", 1), ("u2", 1)] := by
  refine ⟨rfl, ?_, rfl⟩
  intro h
  simp at h

theorem pagLoop_success_step (env : String → List HttpEvent) (key : String)
    (fuel : Nat) (s : String) (pre : List HttpEvent) (st : Nat)
    (hdr : Option String) (fields : List (String × JVal))
    (rest : List HttpEvent) (acc : List JVal)
    (hne : s ≠ "") (henv : env s = pre ++ .resp st hdr (.jobj fields) :: rest)
    (hpre : ∀ x ∈ pre, is429ok x = true) (hok : isOkStatus st = true)
    (hbody : fields ≠ []) (hitems : itemsOk key fields = true) :
    pagLoop env key (fuel + 1) (.jstr s) acc =
      ⟨(pagLoop env key fuel ((getVal fields "next_page").getD .jnull)
          (acc ++ pItems key fields)).res,
       (s, pre.length + 1) ::
         (pagLoop env key fuel ((getVal fields "next_page").getD .jnull)
           (acc ++ pItems key fields)).fetched⟩ := by
  have htr : pyTruthy (.jstr s) = true := by simp [pyTruthy, hne]
  simp only [pagLoop, htr, if_true]
  rw [henv, make_request_split pre _ rest hpre (is429_false_of_ok _ hdr _ hok)]
  rw [evalEvent_ok _ hdr _ hok]
  have htrb : pyTruthy (.jobj fields) = true := by
    cases hb : fields with
    | nil => exact absurd hb hbody
    | cons a l => simp [pyTruthy]
  simp only [htrb, if_true]
  rw [extendItems_ok key fields hitems]

/-- C4: on a successful page response (a truthy JSON object), the loop
appends the items found under the key — an absent key contributing the empty
list — and then continues from the response's `next_page` cursor; and when
that cursor is falsy (absent, null or empty) the loop terminates with the
accumulated items, having fetched nothing further. -/
theorem C4_success_append_advance :
    (∀ (env : String → List HttpEvent) (key : String) (fuel : Nat) (s : String)
       (pre : List HttpEvent) (st : Nat) (hdr : Option String)
       (fields : List (String × JVal)) (rest : List HttpEvent) (acc : List JVal),
       s ≠ "" → env s = pre ++ .resp st hdr (.jobj fields) :: rest →
       (∀ x ∈ pre, is429ok x = true) → isOkStatus st = true →
       fields ≠ [] → itemsOk key fields = true →
       pagLoop env key (fuel + 1) (.jstr s) acc =
         ⟨(pagLoop env key fuel ((getVal fields "next_page").getD .jnull)
             (acc ++ pItems key fields)).res,
          (s, pre.length + 1) ::
            (pagLoop env key fuel ((getVal fields "next_page").getD .jnull)
              (acc ++ pItems key fields)).fetched⟩) ∧
    (∀ (env : String → List HttpEvent) (key : String) (fuel : Nat) (s : String)
       (pre : List HttpEvent) (st : Nat) (hdr : Option String)
       (fields : List (String × JVal)) (rest : List HttpEvent) (acc : List JVal),
       s ≠ "" → env s = pre ++ .resp st hdr (.jobj fields) :: rest →
       (∀ x ∈ pre, is429ok x = true) → isOkStatus st = true →
       fields ≠ [] → itemsOk key fields = true →
       pyTruthy ((getVal fields "next_page").getD .jnull) = false →
       pagLoop env key (fuel + 2) (.jstr s) acc =
         ⟨.ok (acc ++ pItems key fields), [(s, pre.length + 1)]⟩) := by
  constructor
  · intro env key fuel s pre st hdr fields rest acc hne henv hpre hok hbody hitems
    exact pagLoop_success_step env key fuel s pre st hdr fields rest acc hne henv
      hpre hok hbody hitems
  · intro env key fuel s pre st hdr fields rest acc hne henv hpre hok hbody hitems hnp
    rw [pagLoop_success_step env key (fuel + 1) s pre st hdr fields rest acc hne
      henv hpre hok hbody hitems]
    simp [pagLoop, hnp]

/-- Environment for the C4 witness: a page with no item key, only a cursor,
then a final page with items and no cursor. -/
def wEnv4 : String → List HttpEvent := fun u =>
  if u = "p1" then [.resp 200 none (.jobj [("next_page", .jstr "p2")])]
  else if u = "p2" then [.resp 200 none (.jobj [("k", .jarr [.jnum 5])])]
  else []

theorem C4_success_append_advance_witness :
    (pagLoop wEnv4 "k" 2 (.jstr "p1") [] =
      ⟨(pagLoop wEnv4 "k" 1 (.jstr "p2") []).res,
       ("p1", 1) :: (pagLoop wEnv4 "k" 1 (.jstr "p2") []).fetched⟩) ∧
    (pagLoop wEnv4 "k" 3 (.jstr "p2") [] = ⟨.ok [.jnum 5], [("p2", 1)]⟩) := by
  constructor
  · have h := C4_success_append_advance.1 wEnv4 "k" 1 "p1" [] 200 none
      [("next_page", .jstr "p2")] [] [] (by decide) rfl (by simp) rfl (by simp) rfl
    simpa [pItems, getVal] using h
  · have h := C4_success_append_advance.2 wEnv4 "k" 1 "p2" [] 200 none
      [("k", .jarr [.jnum 5])] [] [] (by decide) rfl (by simp) rfl (by simp) rfl rfl
    simpa [pItems, getVal] using h

/-- C2 counterexample: a 429 whose `Retry-After` is an HTTP-date followed by
a 200 for the same URL.  The claim predicts a sleep and a second request
collecting the page once; the code instead raises `ValueError` after a
single request, issuing no retry and collecting nothing. -/
theorem C2_429_counterexample :
    make_request [.resp 429 (some "Mon, 01 Jan 2024 00:00:00 GMT") .jnull,
                  .resp 200 none (.jobj [("k", .jarr [.jnum 1])])] =
      ⟨.exn .valueError, 1, []⟩ ∧
    MRRes.exn .valueError ≠ .data (.jobj [("k", .jarr [.jnum 1])]) ∧
    (1 : Nat) ≠ 2 := by
  refine ⟨rfl, ?_, by decide⟩
  intro h
  nomatch h

/-- C2 (amended): for a 429 response whose `Retry-After` header is absent or
parses to a nonnegative decimal integer, `make_request` sleeps that duration
(60 when absent) and reissues the same request, for arbitrarily many such
429s before the first non-429 event; in particular a 429 followed by a 200
on the same URL yields exactly two requests to it and the page's items
exactly once. -/
theorem C2_429_retry_amended :
    (∀ (pre : List HttpEvent) (e : HttpEvent) (rest : List HttpEvent),
       (∀ x ∈ pre, is429ok x = true) → is429 e = false →
       make_request (pre ++ e :: rest) =
         ⟨evalEvent e, pre.length + 1, pre.map waitOf⟩) ∧
    (∀ (env : String → List HttpEvent) (sub endpoint key : String) (fuel : Nat)
       (hdr junk : Option String) (b : JVal) (st : Nat)
       (fields : List (String × JVal)),
       is429ok (.resp 429 hdr b) = true → isOkStatus st = true →
       env (hcBaseUrl sub ++ "/" ++ endpoint) =
         [.resp 429 hdr b, .resp st junk (.jobj fields)] →
       fields ≠ [] → itemsOk key fields = true →
       pyTruthy ((getVal fields "next_page").getD .jnull) = false →
       get_all_paginated env sub endpoint key (fuel + 2) =
         ⟨.ok (pItems key fields), [(hcBaseUrl sub ++ "/" ++ endpoint, 2)]⟩) := by
  constructor
  · exact make_request_split
  · intro env sub endpoint key fuel hdr junk b st fields h429 hok henv hbody hitems hnp
    unfold get_all_paginated
    rw [pagLoop_success_step env key (fuel + 1) _ [.resp 429 hdr b] st junk fields
      [] [] (startUrl_ne sub endpoint) henv
      (by intro x hx; simp only [List.mem_singleton] at hx; subst hx; exact h429)
      hok hbody hitems]
    simp [pagLoop, hnp]

/-- Environment for the C2 witness: one 429 with `Retry-After: 2`, then a
200 carrying the single page. -/
def wEnv2 : String → List HttpEvent := fun u =>
  if u = hcBaseUrl "s" ++ "/" ++ "c" then
    [.resp 429 (some "2") .jnull, .resp 200 none (.jobj [("k", .jarr [.jnum 9])])]
  else []

theorem C2_429_retry_amended_witness :
    make_request [.resp 429 (some "2") .jnull, .resp 429 none .jnull,
                  .resp 200 none (.jobj [("k", .jarr [.jnum 9])])] =
      ⟨.data (.jobj [("k", .jarr [.jnum 9])]), 3, [2, 60]⟩ ∧
    get_all_paginated wEnv2 "s" "c" "k" 2 =
      ⟨.ok [.jnum 9], [(hcBaseUrl "s" ++ "/c", 2)]⟩ := by
  constructor
  · have h := C2_429_retry_amended.1
      [.resp 429 (some "2") .jnull, .resp 429 none .jnull]
      (.resp 200 none (.jobj [("k", .jarr [.jnum 9])])) []
      (by intro x hx; fin_cases hx <;> rfl) rfl
    simpa [evalEvent, waitOf, pyInt] using h
  · exact C2_429_retry_amended.2 wEnv2 "s" "c" "k" 0 (some "2") none .jnull 200
      [("k", .jarr [.jnum 9])] rfl rfl rfl (by simp) rfl rfl

/-- C9: when a 429 response carries a `Retry-After` header that `int()`
rejects (e.g. an HTTP-date), `make_request` raises `ValueError` from the
conversion — uncaught by the `RequestException` handler — after a single
request, with no sleep, no retry, no fallback to 60 and no `None` return. -/
theorem C9_retry_after_valueerror (s : String) (b : JVal) (rest : List HttpEvent)
    (h : pyInt s = none) :
    make_request (.resp 429 (some s) b :: rest) = ⟨.exn .valueError, 1, []⟩ := by
  simp [make_request, h]

theorem C9_retry_after_valueerror_witness :
    pyInt "Wed, 21 Oct 2015 07:28:00 GMT" = none ∧
    make_request [.resp 429 (some "Wed, 21 Oct 2015 07:28:00 GMT") .jnull,
                  .resp 200 none .jnull] = ⟨.exn .valueError, 1, []⟩ :=
  ⟨rfl, C9_retry_after_valueerror "Wed, 21 Oct 2015 07:28:00 GMT" .jnull
    [.resp 200 none .jnull] rfl⟩

theorem getVal_setKey_same (fs : List (String × JVal)) (k : String) (v : JVal) :
    getVal (setKey fs k v) k = some v := by
  induction fs with
  | nil => simp [setKey, getVal]
  | cons p rest ih =>
    by_cases h : p.1 = k
    · simp [setKey, h, getVal]
    · simp [setKey, h, getVal, ih]

theorem getVal_setKey_other (fs : List (String × JVal)) (k k' : String) (v : JVal)
    (h : k' ≠ k) : getVal (setKey fs k v) k' = getVal fs k' := by
  induction fs with
  | nil => simp [setKey, getVal, Ne.symm h]
  | cons p rest ih =>
    by_cases hp : p.1 = k
    · subst hp
      simp [setKey, getVal, Ne.symm h]
    · by_cases hp' : p.1 = k'
      · simp [setKey, hp, getVal, hp', h]
      · simp [setKey, hp, getVal, hp', ih]

theorem enrichArticle_ok_inv (dl : String → String → Bool) (sub : String)
    (fields : List (String × JVal)) (a' : JVal) (recs : List DlRec)
    (wr : List String)
    (h : enrichArticle dl sub (.jobj fields) = ⟨.ok (a', recs), wr⟩) :
    a' = .jobj (setKey fields "downloaded_attachments"
      (.jarr (recs.map DlRec.toJVal))) := by
  simp only [enrichArticle] at h
  cases hs : (structuredPart dl sub fields).1 with
  | exn e => rw [hs] at h; simp at h
  | undet => rw [hs] at h; simp at h
  | ok sRecs =>
    rw [hs] at h
    cases hi : inlinePart dl sub fields with
    | exn e => rw [hi] at h; simp at h
    | undet => rw [hi] at h; simp at h
    | ok ext =>
      rw [hi] at h
      simp only [EnrOut.mk.injEq, ERes.ok.injEq, Prod.mk.injEq] at h
      obtain ⟨⟨ha, hr⟩, -⟩ := h
      rw [← ha, hr]

/-- C10: when the per-article enrichment completes, the value under
`downloaded_attachments` in the serialized article is exactly the freshly
computed record list — any upstream value under that key is unconditionally
replaced. -/
theorem C10_downloaded_attachments_replaced (dl : String → String → Bool)
    (sub : String) (fields : List (String × JVal)) (a' : JVal)
    (recs : List DlRec) (wr : List String)
    (h : enrichArticle dl sub (.jobj fields) = ⟨.ok (a', recs), wr⟩) :
    ∃ enr, a' = .jobj enr ∧
      getVal enr "downloaded_attachments" = some (.jarr (recs.map DlRec.toJVal)) := by
  obtain rfl := enrichArticle_ok_inv dl sub fields a' recs wr h
  exact ⟨_, rfl, getVal_setKey_same _ _ _⟩

theorem C10_downloaded_attachments_replaced_witness :
    enrichArticle (fun _ _ => false) "s"
      (.jobj [("downloaded_attachments", .jstr "upstream"), ("id", .jnum 1)]) =
      ⟨.ok (.jobj [("downloaded_attachments", .jarr []), ("id", .jnum 1)], []), []⟩ ∧
    ∃ enr, JVal.jobj [("downloaded_attachments", .jarr []), ("id", .jnum 1)] =
        .jobj enr ∧
      getVal enr "downloaded_attachments" =
        some (.jarr (([] : List DlRec).map DlRec.toJVal)) :=
  ⟨rfl, C10_downloaded_attachments_replaced (fun _ _ => false) "s"
    [("downloaded_attachments", .jstr "upstream"), ("id", .jnum 1)]
    (.jobj [("downloaded_attachments", .jarr []), ("id", .jnum 1)]) [] [] rfl⟩

/-- Every field of the original article other than `downloaded_attachments`
appears unchanged in the enriched article. -/
def preservesFrame (a a' : JVal) : Prop :=
  ∀ fields, a = .jobj fields → ∃ enr, a' = .jobj enr ∧
    ∀ k, k ≠ "downloaded_attachments" → getVal enr k = getVal fields k

theorem enrichAll_ok_inv (dl : String → String → Bool) (sub : String)
    (l : List JVal) (l' : List JVal) (recs : List DlRec)
    (wr : List String) (h : enrichAll dl sub l = (.ok (l', recs), wr)) :
    List.Forall₂ (fun a a' =>
      ∃ r w, enrichArticle dl sub a = ⟨.ok (a', r), w⟩) l l' := by
  induction l generalizing l' recs wr with
  | nil =>
    simp only [enrichAll, Prod.mk.injEq, ERes.ok.injEq] at h
    obtain ⟨⟨h1, -⟩, -⟩ := h
    rw [← h1]
    exact List.Forall₂.nil
  | cons a rest ih =>
    simp only [enrichAll] at h
    cases ho : (enrichArticle dl sub a).res with
    | exn e => rw [ho] at h; simp at h
    | undet => rw [ho] at h; simp at h
    | ok pr =>
      obtain ⟨a', recsa⟩ := pr
      rw [ho] at h
      cases hr : (enrichAll dl sub rest).1 with
      | exn e => rw [hr] at h; simp at h
      | undet => rw [hr] at h; simp at h
      | ok pr' =>
        obtain ⟨as', recs'⟩ := pr'
        rw [hr] at h
        simp only [Prod.mk.injEq, ERes.ok.injEq] at h
        obtain ⟨⟨h1, -⟩, -⟩ := h
        rw [← h1]
        exact List.Forall₂.cons
          ⟨recsa, (enrichArticle dl sub a).writes, by rw [← ho]⟩
          (ih as' recs' (enrichAll dl sub rest).2 (by rw [← hr]))

/-- C8: when `export_articles` completes, the serialized `articles.json`
holds exactly the enriched article list, and each enriched article preserves
every field of the fetched article other than `downloaded_attachments`
(value-identical, hence byte-identical once serialized). -/
theorem C8_fields_preserved (env : String → List HttpEvent)
    (dl : String → String → Bool) (sub : String) (fuel : Nat)
    (arts : List JVal) (fet : List (String × Nat)) (arts' : List JVal)
    (recs : List DlRec) (wr : List (String × JVal))
    (hp : get_all_paginated env sub "articles" "articles" fuel = ⟨.ok arts, fet⟩)
    (he : export_articles env dl sub fuel = ⟨.ok (arts', recs), wr⟩) :
    List.Forall₂ preservesFrame arts arts' ∧
    (exportDir sub ++ "/articles.json", .jarr arts') ∈ wr := by
  simp only [export_articles, hp] at he
  cases hr : (enrichAll dl sub arts).1 with
  | exn e => rw [hr] at he; simp at he
  | undet => rw [hr] at he; simp at he
  | ok pr =>
    obtain ⟨as', recs'⟩ := pr
    rw [hr] at he
    simp only [ExpOut.mk.injEq, ERes.ok.injEq, Prod.mk.injEq] at he
    obtain ⟨⟨h1, -⟩, h2⟩ := he
    constructor
    · have hf := enrichAll_ok_inv dl sub arts as' recs'
        (enrichAll dl sub arts).2 (by rw [← hr])
      rw [← h1]
      refine hf.imp ?_
      rintro a a' ⟨r, w, hok⟩ fields rfl
      obtain rfl := enrichArticle_ok_inv dl sub fields a' r w hok
      exact ⟨_, rfl, fun k hk => getVal_setKey_other fields _ k _ hk⟩
    · rw [← h2, ← h1]
      simp

/-- Environment for the C8 witness: one page with one article carrying a
passthrough field `x`. -/
def wEnv8 : String → List HttpEvent := fun u =>
  if u = hcBaseUrl "s" ++ "/" ++ "articles" then
    [.resp 200 none
      (.jobj [("articles", .jarr [.jobj [("id", .jnum 1), ("x", .jstr "y")]])])]
  else []

theorem C8_fields_preserved_witness :
    List.Forall₂ preservesFrame [.jobj [("id", .jnum 1), ("x", .jstr "y")]]
      [.jobj [("id", .jnum 1), ("x", .jstr "y"), ("downloaded_attachments", .jarr [])]] ∧
    (exportDir "s" ++ "/articles.json",
      .jarr [.jobj [("id", .jnum 1), ("x", .jstr "y"),
        ("downloaded_attachments", .jarr [])]]) ∈
      (export_articles wEnv8 (fun _ _ => false) "s" 2).writes :=
  C8_fields_preserved wEnv8 (fun _ _ => false) "s" 2
    [.jobj [("id", .jnum 1), ("x", .jstr "y")]]
    [(hcBaseUrl "s" ++ "/" ++ "articles", 1)]
    [.jobj [("id", .jnum 1), ("x", .jstr "y"), ("downloaded_attachments", .jarr [])]]
    [] [(exportDir "s" ++ "/articles.json",
      .jarr [.jobj [("id", .jnum 1), ("x", .jstr "y"),
        ("downloaded_attachments", .jarr [])]])]
    rfl rfl

/-- The record built for the enumerated match `p` when its download
succeeds. -/
def inlineRecOf (sub : String) (aid : JVal) (html : String)
    (p : Nat × List Char) : DlRec :=
  .inline ⟨p.2⟩ (attUrlPre ++ ⟨p.2⟩)
    (exportDir sub ++ "/attachments/" ++ inlineFname aid html p)
    (inlineFname aid html p) (inlineName html p.2)

theorem extractLoop_calls (dl : String → String → Bool) (sub : String)
    (html : String) (aid : JVal) (l : List (Nat × List Char)) :
    (extractLoop dl sub html aid l).calls =
      l.map (fun p => (attUrlPre ++ ⟨p.2⟩, inlineFname aid html p)) := by
  induction l with
  | nil => rfl
  | cons p rest ih =>
    by_cases hd : dl (attUrlPre ++ ⟨p.2⟩) (inlineFname aid html p) <;>
      simp [extractLoop, download_attachment, hd, ih]

theorem extractLoop_recs (dl : String → String → Bool) (sub : String)
    (html : String) (aid : JVal) (l : List (Nat × List Char)) :
    (extractLoop dl sub html aid l).recs =
      (l.filter (fun p => dl (attUrlPre ++ ⟨p.2⟩) (inlineFname aid html p))).map
        (inlineRecOf sub aid html) := by
  induction l with
  | nil => rfl
  | cons p rest ih =>
    by_cases hd : dl (attUrlPre ++ ⟨p.2⟩) (inlineFname aid html p) <;>
      simp [extractLoop, download_attachment, hd, ih, inlineRecOf, List.filter_cons]

/-- C7: the inline resolver issues one download per match of the attachment
pattern, in order of appearance without deduplication, naming the `i`-th
match `{article_id}_{i+1}_{name}` where the name is the matching img tag's
alt text or the fallback `attachment_{id}` (`inlineName`); when all
downloads succeed the records are exactly one per match in the same order;
and a body referencing the same URL twice yields two downloads and two
records with distinct sequence-numbered filenames. -/
theorem C7_inline_resolution :
    (∀ (dl : String → String → Bool) (sub html : String) (aid : JVal),
      (extract_attachments_from_html dl sub html aid).calls =
        (findMatches html.data).enum.map
          (fun p => (attUrlPre ++ ⟨p.2⟩, inlineFname aid html p))) ∧
    (∀ (sub html : String) (aid : JVal),
      (extract_attachments_from_html (fun _ _ => true) sub html aid).recs =
        (findMatches html.data).enum.map (inlineRecOf sub aid html)) ∧
    ((extract_attachments_from_html (fun _ _ => true) "s"
        (attUrlPre ++ "7 " ++ attUrlPre ++ "7") (.jnum 3)).recs.map DlRec.filename =
      ["3_1_attachment_7", "3_2_attachment_7"] ∧
     (["3_1_attachment_7", "3_2_attachment_7"] : List String).Nodup) := by
  refine ⟨?_, ?_, by rfl, by decide⟩
  · intro dl sub html aid
    exact extractLoop_calls dl sub html aid (findMatches html.data).enum
  · intro sub html aid
    rw [extract_attachments_from_html,
      extractLoop_recs (fun _ _ => true) sub html aid (findMatches html.data).enum]
    simp

/-- Environment for the C6 counterexample: empty category and section
listings, then one article whose attachment entry is an empty dict. -/
def cEnv6 : String → List HttpEvent := fun u =>
  if u = hcBaseUrl "s" ++ "/" ++ "categories" then
    [.resp 200 none (.jobj [("categories", .jarr [])])]
  else if u = hcBaseUrl "s" ++ "/" ++ "sections" then
    [.resp 200 none (.jobj [("sections", .jarr [])])]
  else if u = hcBaseUrl "s" ++ "/" ++ "articles" then
    [.resp 200 none (.jobj [("articles",
      .jarr [.jobj [("id", .jnum 1), ("attachments", .jarr [.jobj []])]])])]
  else []

/-- C6 counterexample: an article whose attachment entry lacks `file_name`
makes `export_articles` raise an uncaught `KeyError`, so the run aborts and
`manifest.json` is never written — errors inside the export stages do
escalate to process failure. -/
theorem C6_keyerror_counterexample :
    (export_all cEnv6 (fun _ _ => true) "s" "d" 2).res = .exn (.keyError "file_name") ∧
    (exportDir "s" ++ "/manifest.json") ∉
      (export_all cEnv6 (fun _ _ => true) "s" "d" 2).writes.map Prod.fst := by
  exact ⟨rfl, by decide⟩

/-- Article record of the shape the Zendesk API serves: an integer id, an
attachment list whose entries carry string `file_name` and `content_url`,
a string body (possibly empty), and arbitrary further fields. -/
structure ShapedArticle where
  aid : Nat
  atts : List (String × String)
  body : String
  extra : List (String × JVal)

/-- The fields of a shaped article in serving order. -/
def shapedFields (A : ShapedArticle) : List (String × JVal) :=
  [("id", .jnum A.aid),
   ("attachments", .jarr (A.atts.map fun q =>
      .jobj [("file_name", .jstr q.1), ("content_url", .jstr q.2)])),
   ("body", .jstr A.body)] ++ A.extra

/-- The shaped article as a JSON value. -/
def ShapedArticle.toJVal (A : ShapedArticle) : JVal := .jobj (shapedFields A)

/-- Structured-attachment filename `f"{article['id']}_{file_name}"`. -/
def sFname (n : Nat) (fn : String) : String := natStr n ++ "_" ++ fn

/-- Structured record for a (file_name, content_url) entry. -/
def sRecOf (sub : String) (n : Nat) (q : String × String) : DlRec :=
  .structured q.2 (exportDir sub ++ "/attachments/" ++ sFname n q.1) (sFname n q.1)

/-- The structured records a shaped article yields (downloads that fail are
skipped). -/
def sRecsOf (dl : String → String → Bool) (sub : String) (A : ShapedArticle) :
    List DlRec :=
  (A.atts.filter fun q => dl q.2 (sFname A.aid q.1)).map (sRecOf sub A.aid)

/-- The inline records a shaped article yields. -/
def iRecsOf (dl : String → String → Bool) (sub : String) (A : ShapedArticle) :
    List DlRec :=
  (extract_attachments_from_html dl sub A.body (.jnum A.aid)).recs

theorem attLoop_shaped (dl : String → String → Bool) (sub : String)
    (fields : List (String × JVal)) (n : Nat)
    (hid : getVal fields "id" = some (.jnum n)) (atts : List (String × String)) :
    attLoop dl sub fields (atts.map fun q =>
        .jobj [("file_name", .jstr q.1), ("content_url", .jstr q.2)]) =
      (.ok ((atts.filter fun q => dl q.2 (sFname n q.1)).map (sRecOf sub n)),
       (atts.filter fun q => dl q.2 (sFname n q.1)).map fun q =>
         exportDir sub ++ "/attachments/" ++ sFname n q.1) := by
  induction atts with
  | nil => rfl
  | cons q rest ih =>
    by_cases hd : dl q.2 (natStr n ++ "_" ++ q.1) <;>
      simp [attLoop, reqKey, hid, getVal, download_attachment, pyStr, sFname, hd, ih,
        List.filter_cons, sRecOf]

theorem getVal_shaped_id (A : ShapedArticle) :
    getVal (shapedFields A) "id" = some (.jnum A.aid) := by
  simp [shapedFields, getVal]

theorem structuredPart_shaped (dl : String → String → Bool) (sub : String)
    (A : ShapedArticle) :
    structuredPart dl sub (shapedFields A) =
      (.ok (sRecsOf dl sub A),
       (A.atts.filter fun q => dl q.2 (sFname A.aid q.1)).map fun q =>
         exportDir sub ++ "/attachments/" ++ sFname A.aid q.1) := by
  have hatts : getVal (shapedFields A) "attachments" =
      some (.jarr (A.atts.map fun q =>
        .jobj [("file_name", .jstr q.1), ("content_url", .jstr q.2)])) := by
    simp [shapedFields, getVal]
  have hloop := attLoop_shaped dl sub (shapedFields A) A.aid (getVal_shaped_id A) A.atts
  unfold structuredPart
  rw [hatts]
  cases ha : A.atts with
  | nil => simp [pyTruthy, sRecsOf, ha]
  | cons q rest =>
    rw [ha] at hloop
    simp only [List.map_cons] at hloop ⊢
    simp [pyTruthy, hloop, sRecsOf, ha]

theorem extract_empty (dl : String → String → Bool) (sub : String) (aid : JVal) :
    extract_attachments_from_html dl sub "" aid = ⟨[], [], []⟩ := rfl

theorem inlinePart_shaped (dl : String → String → Bool) (sub : String)
    (A : ShapedArticle) :
    inlinePart dl sub (shapedFields A) =
      .ok (extract_attachments_from_html dl sub A.body (.jnum A.aid)) := by
  have hbody : getVal (shapedFields A) "body" = some (.jstr A.body) := by
    simp [shapedFields, getVal]
  unfold inlinePart
  rw [hbody]
  by_cases hb : A.body = ""
  · simp [hb, pyTruthy, extract_empty]
  · simp [pyTruthy, hb, reqKey, getVal_shaped_id A]

/-- What enrichment does to a shaped article: always succeeds, appending the
structured records then the inline records. -/
theorem enrichArticle_shaped (dl : String → String → Bool) (sub : String)
    (A : ShapedArticle) :
    enrichArticle dl sub A.toJVal =
      ⟨.ok (.jobj (setKey (shapedFields A) "downloaded_attachments"
          (.jarr ((sRecsOf dl sub A ++ iRecsOf dl sub A).map DlRec.toJVal))),
        sRecsOf dl sub A ++ iRecsOf dl sub A),
       ((A.atts.filter fun q => dl q.2 (sFname A.aid q.1)).map fun q =>
          exportDir sub ++ "/attachments/" ++ sFname A.aid q.1) ++
         (extract_attachments_from_html dl sub A.body (.jnum A.aid)).writes⟩ := by
  show enrichArticle dl sub (.jobj (shapedFields A)) = _
  simp only [enrichArticle, structuredPart_shaped dl sub A, inlinePart_shaped dl sub A,
    iRecsOf]

/-- Enriched article value for a shaped article. -/
def enrichedOf (dl : String → String → Bool) (sub : String) (A : ShapedArticle) : JVal :=
  .jobj (setKey (shapedFields A) "downloaded_attachments"
    (.jarr ((sRecsOf dl sub A ++ iRecsOf dl sub A).map DlRec.toJVal)))

theorem enrichAll_shaped (dl : String → String → Bool) (sub : String)
    (S : List ShapedArticle) :
    (enrichAll dl sub (S.map ShapedArticle.toJVal)).1 =
      .ok (S.map (enrichedOf dl sub),
        (S.map fun A => sRecsOf dl sub A ++ iRecsOf dl sub A).flatten) := by
  induction S with
  | nil => rfl
  | cons A rest ih =>
    simp only [List.map_cons, enrichAll, enrichArticle_shaped dl sub A]
    rw [ih]
    simp [enrichedOf]

theorem get_all_paginated_chain (env : String → List HttpEvent)
    (sub endpoint key : String) (fuel : Nat) (chain : List PageSpec)
    (ed : ChainEnd)
    (hwf : chainWF env key (.jstr (hcBaseUrl sub ++ "/" ++ endpoint)) chain ed)
    (hfuel : chain.length < fuel) :
    get_all_paginated env sub endpoint key fuel =
      ⟨.ok ((chain.map (fun p => pItems key p.body)).flatten),
       chain.map (fun p => (p.url, p.pre.length + 1)) ++ endFetch ed⟩ := by
  unfold get_all_paginated
  rw [pagLoop_chain chain ed env key _ [] fuel hwf hfuel]
  simp

/-- C6 (amended): when every fetched article is a well-shaped record (a dict
with an integer `id`, an attachment list of dicts carrying string
`file_name` and `content_url`, and a string body), the well-formed
pagination chains terminate within fuel, and the theme request is
determined, the run completes without an uncaught exception and writes
`manifest.json`; outside these conditions missing fields raise uncaught
`KeyError`/`TypeError` (see the counterexample). -/
theorem C6_completion_amended (env : String → List HttpEvent)
    (dl : String → String → Bool) (sub date : String) (fuel : Nat)
    (chC chS chA : List PageSpec) (edC edS edA : ChainEnd)
    (S : List ShapedArticle)
    (hC : chainWF env "categories" (.jstr (hcBaseUrl sub ++ "/" ++ "categories")) chC edC)
    (hS : chainWF env "sections" (.jstr (hcBaseUrl sub ++ "/" ++ "sections")) chS edS)
    (hA : chainWF env "articles" (.jstr (hcBaseUrl sub ++ "/" ++ "articles")) chA edA)
    (hfC : chC.length < fuel) (hfS : chS.length < fuel) (hfA : chA.length < fuel)
    (hitems : (chA.map (fun p => pItems "articles" p.body)).flatten =
      S.map ShapedArticle.toJVal)
    (hth : (make_request (env (hcBaseUrl sub ++ "/themes"))).res ≠ .undet) :
    (export_all env dl sub date fuel).res = .ok () ∧
    (exportDir sub ++ "/manifest.json") ∈
      (export_all env dl sub date fuel).writes.map Prod.fst := by
  have hCat : export_categories env sub fuel =
      ⟨.ok ((chC.map (fun p => pItems "categories" p.body)).flatten),
       [(exportDir sub ++ "/categories.json",
         .jarr ((chC.map (fun p => pItems "categories" p.body)).flatten))]⟩ := by
    simp only [export_categories, get_all_paginated_chain env sub "categories"
      "categories" fuel chC edC hC hfC]
  have hSec : export_sections env sub fuel =
      ⟨.ok ((chS.map (fun p => pItems "sections" p.body)).flatten),
       [(exportDir sub ++ "/sections.json",
         .jarr ((chS.map (fun p => pItems "sections" p.body)).flatten))]⟩ := by
    simp only [export_sections, get_all_paginated_chain env sub "sections"
      "sections" fuel chS edS hS hfS]
  have hArt : (export_articles env dl sub fuel).res =
      .ok (S.map (enrichedOf dl sub),
        (S.map fun A => sRecsOf dl sub A ++ iRecsOf dl sub A).flatten) := by
    simp only [export_articles, get_all_paginated_chain env sub "articles"
      "articles" fuel chA edA hA hfA, hitems]
    rw [enrichAll_shaped dl sub S]
  have hThRes : (export_themes env sub).res = .ok () := by
    simp only [export_themes]
    cases ho : (make_request (env (hcBaseUrl sub ++ "/themes"))).res with
    | data v => by_cases hv : pyTruthy v <;> simp [hv]
    | fail => rfl
    | exn e => rfl
    | undet => exact absurd ho hth
  obtain ⟨artsRes, hA1, hA2⟩ : ∃ o, export_articles env dl sub fuel = o ∧
      o.res = .ok (S.map (enrichedOf dl sub),
        (S.map fun A => sRecsOf dl sub A ++ iRecsOf dl sub A).flatten) :=
    ⟨export_articles env dl sub fuel, rfl, hArt⟩
  obtain ⟨thOut, hT1, hT2⟩ : ∃ o, export_themes env sub = o ∧ o.res = .ok () :=
    ⟨export_themes env sub, rfl, hThRes⟩
  cases artsRes with
  | mk ares awrites =>
    cases thOut with
    | mk tres twrites =>
      simp only at hA2 hT2
      subst hA2 hT2
      simp only [export_all, hCat, hSec, hA1, hT1]
      simp

/-- Environment for the C6 witness: empty category and section listings,
one well-shaped article, and a theme response. -/
def wEnv6 : String → List HttpEvent := fun u =>
  if u = hcBaseUrl "s" ++ "/" ++ "categories" then
    [.resp 200 none (.jobj [("categories", .jarr [])])]
  else if u = hcBaseUrl "s" ++ "/" ++ "sections" then
    [.resp 200 none (.jobj [("sections", .jarr [])])]
  else if u = hcBaseUrl "s" ++ "/" ++ "articles" then
    [.resp 200 none (.jobj [("articles",
      .jarr [(ShapedArticle.mk 1 [("a.png", "u1")] "" []).toJVal])])]
  else if u = hcBaseUrl "s" ++ "/themes" then
    [.resp 200 none (.jobj [("themes", .jarr [])])]
  else []

theorem C6_completion_amended_witness :
    (export_all wEnv6 (fun _ _ => true) "s" "d" 2).res = .ok () ∧
    (exportDir "s" ++ "/manifest.json") ∈
      (export_all wEnv6 (fun _ _ => true) "s" "d" 2).writes.map Prod.fst :=
  C6_completion_amended wEnv6 (fun _ _ => true) "s" "d" 2
    [⟨hcBaseUrl "s" ++ "/" ++ "categories", [], 200, none, [("categories", .jarr [])]⟩]
    [⟨hcBaseUrl "s" ++ "/" ++ "sections", [], 200, none, [("sections", .jarr [])]⟩]
    [⟨hcBaseUrl "s" ++ "/" ++ "articles", [], 200, none,
      [("articles", .jarr [(ShapedArticle.mk 1 [("a.png", "u1")] "" []).toJVal])]⟩]
    .cdone .cdone .cdone
    [⟨1, [("a.png", "u1")], "", []⟩]
    ⟨rfl, startUrl_ne "s" "categories", ⟨[], rfl⟩, by simp, rfl, by simp, rfl, rfl⟩
    ⟨rfl, startUrl_ne "s" "sections", ⟨[], rfl⟩, by simp, rfl, by simp, rfl, rfl⟩
    ⟨rfl, startUrl_ne "s" "articles", ⟨[], rfl⟩, by simp, rfl, by simp, rfl, rfl⟩
    (by simp) (by simp) (by simp) rfl (by intro h; nomatch h)

theorem dchar_digit (d : Nat) (h : d < 10) : (Char.ofNat (48 + d)).isDigit = true := by
  interval_cases d <;> decide

theorem dchar_inj (d e : Nat) (hd : d < 10) (he : e < 10)
    (h : Char.ofNat (48 + d) = Char.ofNat (48 + e)) : d = e := by
  interval_cases d <;> interval_cases e <;> first | rfl | exact absurd h (by decide)

theorem natStrAux_zero (fuel : Nat) : natStrAux fuel 0 = [] := by
  cases fuel <;> simp [natStrAux]

theorem natStrAux_digits (fuel : Nat) :
    ∀ n, ∀ c ∈ natStrAux fuel n, c.isDigit = true := by
  induction fuel with
  | zero => intro n c hc; simp [natStrAux] at hc
  | succ f ih =>
    intro n c hc
    by_cases hn : n = 0
    · simp [natStrAux, hn] at hc
    · simp only [natStrAux, hn, if_false] at hc
      rcases List.mem_append.1 hc with h | h
      · exact ih _ _ h
      · simp only [List.mem_singleton] at h
        subst h
        exact dchar_digit _ (Nat.mod_lt _ (by norm_num))

theorem natStrAux_ne_nil (fuel n : Nat) (hn : n ≠ 0) (hf : fuel ≠ 0) :
    natStrAux fuel n ≠ [] := by
  obtain ⟨f, rfl⟩ : ∃ f, fuel = f + 1 := ⟨fuel - 1, by omega⟩
  simp [natStrAux, hn]

theorem natStrAux_fuel (f₁ : Nat) :
    ∀ f₂ n, n ≤ f₁ → n ≤ f₂ → natStrAux f₁ n = natStrAux f₂ n := by
  induction f₁ with
  | zero =>
    intro f₂ n h1 _
    interval_cases n
    simp [natStrAux_zero, natStrAux]
  | succ f ih =>
    intro f₂ n h1 h2
    by_cases hn : n = 0
    · subst hn; simp [natStrAux_zero]
    · obtain ⟨g, rfl⟩ : ∃ g, f₂ = g + 1 := ⟨f₂ - 1, by omega⟩
      have hd : n / 10 < n := Nat.div_lt_self (by omega) (by norm_num)
      simp only [natStrAux, hn, if_false]
      rw [ih g (n / 10) (by omega) (by omega)]

theorem natStrAux_inj (n : Nat) :
    ∀ m f₁ f₂, n ≤ f₁ → m ≤ f₂ → natStrAux f₁ n = natStrAux f₂ m → n = m := by
  induction n using Nat.strong_induction_on with
  | _ n ih =>
    intro m f₁ f₂ h1 h2 heq
    by_cases hn : n = 0
    · subst hn
      rw [natStrAux_zero] at heq
      by_contra hm
      exact natStrAux_ne_nil f₂ m (fun h => hm h.symm) (by omega) heq.symm
    · by_cases hm : m = 0
      · subst hm
        rw [natStrAux_zero] at heq
        exact absurd heq (natStrAux_ne_nil f₁ n hn (by omega))
      · obtain ⟨a, rfl⟩ : ∃ a, f₁ = a + 1 := ⟨f₁ - 1, by omega⟩
        obtain ⟨b, rfl⟩ : ∃ b, f₂ = b + 1 := ⟨f₂ - 1, by omega⟩
        simp only [natStrAux, hn, hm, if_false] at heq
        obtain ⟨hpre, hlast⟩ := List.append_inj' heq rfl
        have hmod : n % 10 = m % 10 :=
          dchar_inj _ _ (Nat.mod_lt _ (by norm_num)) (Nat.mod_lt _ (by norm_num))
            (by simpa using hlast)
        have hnd : n / 10 < n := Nat.div_lt_self (by omega) (by norm_num)
        have hmd : m / 10 < m := Nat.div_lt_self (by omega) (by norm_num)
        have hdiv : n / 10 = m / 10 :=
          ih (n / 10) hnd (m / 10) a b (by omega) (by omega) hpre
        omega

theorem natStr_digits (n : Nat) : ∀ c ∈ (natStr n).data, c.isDigit = true := by
  unfold natStr
  by_cases hn : n = 0
  · simp only [hn, if_true]
    decide
  · simp only [hn, if_false]
    exact natStrAux_digits n n

theorem natStr_inj (n m : Nat) (h : natStr n = natStr m) : n = m := by
  have hd := congrArg String.data h
  unfold natStr at hd
  by_cases hn : n = 0 <;> by_cases hm : m = 0
  · omega
  · exfalso
    rw [if_pos hn, if_neg hm] at hd
    obtain ⟨b, hb⟩ : ∃ b, m = b + 1 := ⟨m - 1, by omega⟩
    rw [hb] at hd
    simp only [natStrAux, Nat.add_eq_zero, hb ▸ hm, if_false] at hd
    have hd' : ([] : List Char) ++ ['0'] =
        natStrAux b ((b + 1) / 10) ++ [Char.ofNat (48 + (b + 1) % 10)] := by
      simpa using hd
    obtain ⟨hpre, hlast⟩ := List.append_inj' hd' rfl
    have h0 : (0 : Nat) = (b + 1) % 10 :=
      dchar_inj _ _ (by norm_num) (Nat.mod_lt _ (by norm_num)) (by simpa using hlast)
    by_cases hb0 : b = 0
    · omega
    · have : (b + 1) / 10 ≠ 0 ∨ (b + 1) / 10 = 0 := by omega
      rcases this with h10 | h10
      · exact natStrAux_ne_nil b ((b + 1) / 10) h10 hb0 hpre.symm
      · omega
  · exfalso
    rw [if_neg hn, if_pos hm] at hd
    obtain ⟨b, hb⟩ : ∃ b, n = b + 1 := ⟨n - 1, by omega⟩
    rw [hb] at hd
    simp only [natStrAux, Nat.add_eq_zero, hb ▸ hn, if_false] at hd
    have hd' : natStrAux b ((b + 1) / 10) ++ [Char.ofNat (48 + (b + 1) % 10)] =
        ([] : List Char) ++ ['0'] := by
      simpa using hd
    obtain ⟨hpre, hlast⟩ := List.append_inj' hd' rfl
    have h0 : (b + 1) % 10 = 0 :=
      dchar_inj _ _ (Nat.mod_lt _ (by norm_num)) (by norm_num) (by simpa using hlast)
    by_cases hb0 : b = 0
    · omega
    · by_cases h10 : (b + 1) / 10 = 0
      · omega
      · exact natStrAux_ne_nil b ((b + 1) / 10) h10 hb0 hpre
  · rw [if_neg hn, if_neg hm] at hd
    exact natStrAux_inj n m n m le_rfl le_rfl hd

theorem sep_inj (a : List Char) :
    ∀ (b s t : List Char), (∀ c ∈ a, c.isDigit = true) →
    (∀ c ∈ b, c.isDigit = true) →
    a ++ '_' :: s = b ++ '_' :: t → a = b ∧ s = t := by
  induction a with
  | nil =>
    intro b s t _ hb h
    cases b with
    | nil => simpa using h
    | cons c b' =>
      exfalso
      simp only [List.nil_append, List.cons_append, List.cons.injEq] at h
      have hcd := hb c (by simp)
      rw [← h.1] at hcd
      simp [Char.isDigit] at hcd
  | cons c a' ih =>
    intro b s t ha hb h
    cases b with
    | nil =>
      exfalso
      simp only [List.nil_append, List.cons_append, List.cons.injEq] at h
      have hcd := ha c (by simp)
      rw [h.1] at hcd
      simp [Char.isDigit] at hcd
    | cons d b' =>
      simp only [List.cons_append, List.cons.injEq] at h
      obtain ⟨rfl, h2⟩ := h
      obtain ⟨h3, h4⟩ := ih b' s t (fun x hx => ha x (by simp [hx]))
        (fun x hx => hb x (by simp [hx])) h2
      exact ⟨by rw [h3], h4⟩

theorem sepStr_inj (a b s t : String)
    (ha : ∀ c ∈ a.data, c.isDigit = true) (hb : ∀ c ∈ b.data, c.isDigit = true)
    (h : a ++ "_" ++ s = b ++ "_" ++ t) : a = b ∧ s = t := by
  have hd := congrArg String.data h
  simp only [String.data_append] at hd
  simp only [List.append_assoc, List.singleton_append] at hd
  obtain ⟨h1, h2⟩ := sep_inj a.data b.data s.data t.data ha hb
    (by simpa [List.append_assoc] using hd)
  refine ⟨?_, ?_⟩
  · cases a; cases b; exact congrArg String.mk h1
  · cases s; cases t; exact congrArg String.mk h2

theorem natStr_sep_inj (n m : Nat) (s t : String)
    (h : natStr n ++ "_" ++ s = natStr m ++ "_" ++ t) : n = m ∧ s = t := by
  obtain ⟨h1, h2⟩ := sepStr_inj _ _ _ _ (natStr_digits n) (natStr_digits m) h
  exact ⟨natStr_inj _ _ h1, h2⟩

/-- The recovered-or-fallback names of an article body's inline matches, in
match order. -/
def inlineNames (b : String) : List String :=
  (findMatches b.data).map (inlineName b)

/-- Filename suffixes an article contributes after its `{article_id}_`
prefix: declared file names, then `{i+1}_{name}` for the inline matches. -/
def sfxList (A : ShapedArticle) : List String :=
  A.atts.map Prod.fst ++
    (inlineNames A.body).enum.map (fun p => natStr (p.1 + 1) ++ "_" ++ p.2)

/-- All candidate local filenames of an article (records are a sublist:
failed downloads drop candidates). -/
def candNames (A : ShapedArticle) : List String :=
  (sfxList A).map (fun x => natStr A.aid ++ "_" ++ x)

theorem inline_filenames_eq (aid : Nat) (b : String) :
    (findMatches b.data).enum.map (fun p => inlineFname (.jnum aid) b p) =
      (inlineNames b).enum.map
        (fun p => natStr aid ++ "_" ++ (natStr (p.1 + 1) ++ "_" ++ p.2)) := by
  simp only [inlineNames, List.enum_map, List.map_map]
  apply List.map_congr_left
  intro p _
  simp [inlineFname, pyStr, Prod.map, String.append_assoc]

theorem article_filenames_sublist (dl : String → String → Bool) (sub : String)
    (A : ShapedArticle) :
    List.Sublist ((sRecsOf dl sub A ++ iRecsOf dl sub A).map DlRec.filename)
      (candNames A) := by
  rw [List.map_append, candNames, sfxList, List.map_append]
  apply List.Sublist.append
  · rw [sRecsOf, List.map_map, List.map_map]
    exact (List.filter_sublist A.atts).map _
  · rw [iRecsOf, extract_attachments_from_html, extractLoop_recs, List.map_map,
      List.map_map]
    have h1 : List.Sublist
        ((List.filter
            (fun p => dl (attUrlPre ++ ⟨p.2⟩) (inlineFname (.jnum A.aid) A.body p))
            (findMatches A.body.data).enum).map
          (fun p => inlineFname (.jnum A.aid) A.body p))
        (((findMatches A.body.data).enum).map
          (fun p => inlineFname (.jnum A.aid) A.body p)) :=
      (List.filter_sublist _).map _
    rw [inline_filenames_eq A.aid A.body] at h1
    exact h1

theorem candNames_nodup (A : ShapedArticle)
    (hdecl : (A.atts.map Prod.fst).Nodup)
    (hcross : ∀ fn ∈ A.atts.map Prod.fst, ∀ p ∈ (inlineNames A.body).enum,
      fn ≠ natStr (p.1 + 1) ++ "_" ++ p.2) :
    (candNames A).Nodup := by
  apply List.Nodup.map_on
  · intro x _ y _ hxy
    exact (natStr_sep_inj A.aid A.aid x y hxy).2
  · rw [sfxList, List.nodup_append]
    have henum : (inlineNames A.body).enum.Nodup :=
      List.Nodup.of_map Prod.fst
        (by rw [List.enum_map_fst]; exact List.nodup_range _)
    refine ⟨hdecl, List.Nodup.map_on ?_ henum, ?_⟩
    · intro p _ q _ hpq
      obtain ⟨h1, h2⟩ := natStr_sep_inj _ _ _ _ hpq
      exact Prod.ext (by omega) h2
    · intro x hx1 hx2
      obtain ⟨p, hp, rfl⟩ := List.mem_map.1 hx2
      exact hcross _ hx1 p hp rfl

theorem candNames_disjoint (S : List ShapedArticle)
    (hid : (S.map ShapedArticle.aid).Nodup) :
    (S.map candNames).Pairwise List.Disjoint := by
  rw [List.pairwise_map]
  have hp : S.Pairwise (fun A B => A.aid ≠ B.aid) := List.pairwise_map.mp hid
  refine hp.imp ?_
  intro A B hne x hxa hxb
  obtain ⟨sa, _, rfl⟩ := List.mem_map.1 hxa
  obtain ⟨sb, _, heq⟩ := List.mem_map.1 hxb
  exact hne (natStr_sep_inj _ _ _ _ heq.symm).1

theorem run_filenames_sublist (dl : String → String → Bool) (sub : String)
    (S : List ShapedArticle) :
    List.Sublist
      ((S.map fun A =>
        (sRecsOf dl sub A ++ iRecsOf dl sub A).map DlRec.filename).flatten)
      ((S.map candNames).flatten) := by
  induction S with
  | nil => simp
  | cons A rest ih =>
    simp only [List.map_cons, List.flatten_cons]
    exact (article_filenames_sublist dl sub A).append ih

/-- C5 (amended): over any run whose fetched articles are well-shaped with
pairwise distinct ids, and where within each article the declared structured
file names are pairwise distinct and none coincides with an inline
`{i+1}_{name}` suffix, all Downloaded Attachment Records of the run
(structured `{article_id}_{declared_file_name}` and inline
`{article_id}_{i+1}_{name}`) carry pairwise distinct local filenames;
without those provisos duplicate filenames occur (see the
counterexample). -/
theorem C5_unique_filenames_amended (env : String → List HttpEvent)
    (dl : String → String → Bool) (sub : String) (fuel : Nat)
    (chain : List PageSpec) (ed : ChainEnd) (S : List ShapedArticle)
    (hwf : chainWF env "articles" (.jstr (hcBaseUrl sub ++ "/" ++ "articles")) chain ed)
    (hfuel : chain.length < fuel)
    (hitems : (chain.map (fun p => pItems "articles" p.body)).flatten =
      S.map ShapedArticle.toJVal)
    (hid : (S.map ShapedArticle.aid).Nodup)
    (hdecl : ∀ A ∈ S, (A.atts.map Prod.fst).Nodup)
    (hcross : ∀ A ∈ S, ∀ fn ∈ A.atts.map Prod.fst,
      ∀ p ∈ (inlineNames A.body).enum, fn ≠ natStr (p.1 + 1) ++ "_" ++ p.2) :
    (export_articles env dl sub fuel).res =
      .ok (S.map (enrichedOf dl sub),
        (S.map fun A => sRecsOf dl sub A ++ iRecsOf dl sub A).flatten) ∧
    (((S.map fun A => sRecsOf dl sub A ++ iRecsOf dl sub A).flatten.map
        DlRec.filename).Nodup) := by
  constructor
  · simp only [export_articles, get_all_paginated_chain env sub "articles"
      "articles" fuel chain ed hwf hfuel, hitems]
    rw [enrichAll_shaped dl sub S]
  · rw [List.map_flatten, List.map_map]
    have hbig : ((S.map candNames).flatten).Nodup := by
      rw [List.nodup_flatten]
      refine ⟨?_, candNames_disjoint S hid⟩
      intro l hl
      obtain ⟨A, hA, rfl⟩ := List.mem_map.1 hl
      exact candNames_nodup A (hdecl A hA) (hcross A hA)
    exact hbig.sublist (run_filenames_sublist dl sub S)

/-- Environment for the C5 counterexample: one article whose two structured
attachments declare the same `file_name`. -/
def cEnv5 : String → List HttpEvent := fun u =>
  if u = hcBaseUrl "s" ++ "/" ++ "articles" then
    [.resp 200 none (.jobj [("articles", .jarr [.jobj
      [("id", .jnum 7),
       ("attachments", .jarr
         [.jobj [("file_name", .jstr "a.png"), ("content_url", .jstr "u1")],
          .jobj [("file_name", .jstr "a.png"), ("content_url", .jstr "u2")]])]])])]
  else []

/-- C5 counterexample: two structured attachments of one article with equal
declared file names produce two records with the same local filename
`7_a.png` in one run, so run-wide filename uniqueness fails as stated. -/
theorem C5_duplicate_filename_counterexample :
    (match (export_articles cEnv5 (fun _ _ => true) "s" 2).res with
     | .ok (_, recs) => recs.map DlRec.filename
     | _ => []) = ["7_a.png", "7_a.png"] ∧
    ¬ (["7_a.png", "7_a.png"] : List String).Nodup := by
  exact ⟨rfl, by decide⟩

/-- Article for the C5 witness: a structured attachment plus an inline
reference. -/
def wArt1 : ShapedArticle := ⟨1, [("a.png", "u1")], attUrlPre ++ "9", []⟩

/-- Second article for the C5 witness: same declared file name, distinct
id. -/
def wArt2 : ShapedArticle := ⟨2, [("a.png", "u2")], "", []⟩

/-- Environment for the C5 witness. -/
def wEnv5 : String → List HttpEvent := fun u =>
  if u = hcBaseUrl "s" ++ "/" ++ "articles" then
    [.resp 200 none (.jobj [("articles", .jarr [wArt1.toJVal, wArt2.toJVal])])]
  else []

theorem C5_unique_filenames_amended_witness :
    (export_articles wEnv5 (fun _ _ => true) "s" 2).res =
      .ok ([wArt1, wArt2].map (enrichedOf (fun _ _ => true) "s"),
        ([wArt1, wArt2].map fun A => sRecsOf (fun _ _ => true) "s" A ++
          iRecsOf (fun _ _ => true) "s" A).flatten) ∧
    ((([wArt1, wArt2].map fun A => sRecsOf (fun _ _ => true) "s" A ++
        iRecsOf (fun _ _ => true) "s" A).flatten.map DlRec.filename).Nodup) :=
  C5_unique_filenames_amended wEnv5 (fun _ _ => true) "s" 2
    [⟨hcBaseUrl "s" ++ "/" ++ "articles", [], 200, none,
      [("articles", .jarr [wArt1.toJVal, wArt2.toJVal])]⟩] .cdone
    [wArt1, wArt2]
    ⟨rfl, startUrl_ne "s" "articles", ⟨[], rfl⟩, by simp, rfl, by simp, rfl, rfl⟩
    (by simp) rfl (by decide) (by decide) (by decide)
